import Mathlib

/-!
# SyckSec Community Edition token engine: a verified model

The repository ships only the engine's call sites (framework examples); the
engine itself (`sycksec` package: recipe model, token codec, token engine,
batch processor) is described by the specification.  Every definition below
whose doc comment starts with `Modelled from the spec:` is a shallow
embedding of a missing engine component, written to follow the spec's words;
where the spec leaves the concrete encoding open (it explicitly defers the
canonical serialization of payload fields), we fix one canonical, versioned
encoding and document it.

Conventions of the embedding:
* machine integers are `Nat` with explicit `% 2 ^ 32` where overflow matters;
* the current time `now` and the noise seed are explicit parameters
  (the engine reads the clock and a random source; the embedding passes
  both as arguments);
* tokens are `List Char`; fallible operations return `Except`/`Option`.
-/

set_option maxRecDepth 100000

namespace SyckSec

instance {ε α : Type} [DecidableEq ε] [DecidableEq α] : DecidableEq (Except ε α) := fun x y =>
  match x, y with
  | .ok a, .ok b =>
    if h : a = b then isTrue (by rw [h]) else isFalse (fun he => h (Except.ok.inj he))
  | .ok _, .error _ => isFalse (fun he => Except.noConfusion he)
  | .error _, .ok _ => isFalse (fun he => Except.noConfusion he)
  | .error e, .error f =>
    if h : e = f then isTrue (by rw [h]) else isFalse (fun he => h (Except.error.inj he))

/-! ## Keyed hash (MAC primitive) and fixed-width numerals -/

/-- Modulus of the 32-bit polynomial accumulator used by the tag. -/
def hashMod : Nat := 4294967296

/-- One accumulator step of the polynomial hash (base 31, mod `2 ^ 32`). -/
def hstep (h c : Nat) : Nat := (h * 31 + c) % hashMod

/-- Modelled from the spec: the secret-keyed checksum primitive of the Token
Codec ("MAC (message-authentication tag): secret-keyed checksum proving
payload integrity and authenticity").  A 32-bit polynomial accumulator over
a byte/scalar sequence. -/
def hsh (l : List Nat) : Nat := l.foldl hstep 5381

/-- Value of a base-16 digit character, `none` on anything else. -/
def digitVal? (c : Char) : Option Nat :=
  if c = '0' then some 0 else if c = '1' then some 1
  else if c = '2' then some 2 else if c = '3' then some 3
  else if c = '4' then some 4 else if c = '5' then some 5
  else if c = '6' then some 6 else if c = '7' then some 7
  else if c = '8' then some 8 else if c = '9' then some 9
  else if c = 'a' then some 10 else if c = 'b' then some 11
  else if c = 'c' then some 12 else if c = 'd' then some 13
  else if c = 'e' then some 14 else if c = 'f' then some 15
  else none

/-- The character for a base-16 digit (out-of-range values collapse to '0'). -/
def digitChar (n : Nat) : Char := "0123456789abcdef".data.getD n '0'

/-- Fixed-width base-`b` numeral of `n`, most significant digit first. -/
def padB (b w n : Nat) : List Char :=
  match w with
  | 0 => []
  | w + 1 => padB b w (n / b) ++ [digitChar (n % b)]

/-- Read a fixed-width base-`b` numeral from the front of a character list. -/
def parseB (b w : Nat) (cs : List Char) : Option (Nat × List Char) :=
  match w with
  | 0 => some (0, cs)
  | w + 1 =>
    match parseB b w cs with
    | none => none
    | some (v, rest) =>
      match rest with
      | [] => none
      | c :: rest' =>
        match digitVal? c with
        | none => none
        | some d => if d < b then some (v * b + d, rest') else none

theorem digitVal_digitChar {b d : Nat} (hb : b ≤ 16) (hd : d < b) :
    digitVal? (digitChar d) = some d := by
  have hd16 : d < 16 := by omega
  interval_cases d <;> simp_all [digitVal?, digitChar]

theorem length_padB (b w n : Nat) : (padB b w n).length = w := by
  induction w generalizing n with
  | zero => rfl
  | succ w ih => simp [padB, ih]

theorem parseB_padB {b : Nat} (hb2 : 2 ≤ b) (hb16 : b ≤ 16) :
    ∀ (w n : Nat), n < b ^ w → ∀ rest, parseB b w (padB b w n ++ rest) = some (n, rest) := by
  intro w
  induction w with
  | zero =>
    intro n hn rest
    rw [pow_zero] at hn
    have : n = 0 := by omega
    subst this
    simp [padB, parseB]
  | succ w ih =>
    intro n hn rest
    have hbpos : 0 < b := by omega
    have hdiv : n / b < b ^ w := by
      rw [Nat.div_lt_iff_lt_mul hbpos]
      calc n < b ^ (w + 1) := hn
        _ = b ^ w * b := by ring
    have hmod : n % b < b := Nat.mod_lt _ hbpos
    simp only [padB, parseB, List.append_assoc, List.cons_append, List.nil_append,
      ih (n / b) hdiv (digitChar (n % b) :: rest)]
    rw [digitVal_digitChar hb16 hmod]
    simp only [hmod, if_true]
    rw [Nat.div_add_mod']

/-- `padB` is injective below `b ^ w`; follows from the parse round-trip. -/
theorem padB_inj {b : Nat} (hb2 : 2 ≤ b) (hb16 : b ≤ 16) {w n m : Nat}
    (hn : n < b ^ w) (hm : m < b ^ w) (h : padB b w n = padB b w m) : n = m := by
  have h1 := parseB_padB hb2 hb16 w n hn []
  have h2 := parseB_padB hb2 hb16 w m hm []
  rw [h] at h1
  have h3 := h1.symm.trans h2
  simpa using h3

/-! ## Single-position sensitivity of the keyed hash -/

theorem hstep_lt (h c : Nat) : hstep h c < hashMod :=
  Nat.mod_lt _ (by simp [hashMod])

theorem foldl_hstep_lt (l : List Nat) (h : Nat) (hh : h < hashMod) :
    l.foldl hstep h < hashMod := by
  induction l generalizing h with
  | nil => exact hh
  | cons c l ih => exact ih _ (hstep_lt _ _)

theorem hsh_lt (l : List Nat) : hsh l < hashMod :=
  foldl_hstep_lt l 5381 (by simp [hashMod])

theorem hstep_inj_left {h₁ h₂ c : Nat} (hb₁ : h₁ < hashMod) (hb₂ : h₂ < hashMod)
    (h : hstep h₁ c = hstep h₂ c) : h₁ = h₂ := by
  have hmod : h₁ * 31 + c ≡ h₂ * 31 + c [MOD hashMod] := by
    unfold hstep at h
    unfold Nat.ModEq
    omega
  have h31 : 31 * h₁ ≡ 31 * h₂ [MOD hashMod] := by
    have := Nat.ModEq.add_right_cancel' c hmod
    calc 31 * h₁ ≡ h₁ * 31 [MOD hashMod] := by rw [Nat.mul_comm]
      _ ≡ h₂ * 31 [MOD hashMod] := this
      _ ≡ 31 * h₂ [MOD hashMod] := by rw [Nat.mul_comm]
  have hg : Nat.gcd hashMod 31 = 1 := by decide
  have := Nat.ModEq.cancel_left_of_coprime hg h31
  have h₁m : h₁ % hashMod = h₁ := Nat.mod_eq_of_lt hb₁
  have h₂m : h₂ % hashMod = h₂ := Nat.mod_eq_of_lt hb₂
  unfold Nat.ModEq at this
  omega

theorem hstep_inj_right {h c₁ c₂ : Nat} (hb₁ : c₁ < hashMod) (hb₂ : c₂ < hashMod)
    (h₁₂ : hstep h c₁ = hstep h c₂) : c₁ = c₂ := by
  unfold hstep at h₁₂
  have h1 : (h * 31 + c₁) % hashMod = (h * 31 + c₂) % hashMod := h₁₂
  have : c₁ ≡ c₂ [MOD hashMod] := by
    have := Nat.ModEq.add_left_cancel' (h * 31) h1
    exact this
  unfold Nat.ModEq at this
  rw [Nat.mod_eq_of_lt hb₁, Nat.mod_eq_of_lt hb₂] at this
  exact this

theorem foldl_hstep_ne (l : List Nat) {h₁ h₂ : Nat} (hb₁ : h₁ < hashMod)
    (hb₂ : h₂ < hashMod) (hne : h₁ ≠ h₂) :
    l.foldl hstep h₁ ≠ l.foldl hstep h₂ := by
  induction l generalizing h₁ h₂ with
  | nil => exact hne
  | cons c l ih =>
    simp only [List.foldl_cons]
    exact ih (hstep_lt _ _) (hstep_lt _ _)
      (fun he => hne (hstep_inj_left hb₁ hb₂ he))

/-- Substituting a single element (at a fixed position) always changes the
keyed hash: the heart of tamper sensitivity. -/
theorem hsh_single_sub_ne (pre suf : List Nat) {c₁ c₂ : Nat}
    (hb₁ : c₁ < hashMod) (hb₂ : c₂ < hashMod) (hne : c₁ ≠ c₂) :
    hsh (pre ++ c₁ :: suf) ≠ hsh (pre ++ c₂ :: suf) := by
  unfold hsh
  rw [List.foldl_append, List.foldl_append, List.foldl_cons, List.foldl_cons]
  have hpre : pre.foldl hstep 5381 < hashMod :=
    foldl_hstep_lt pre 5381 (by simp [hashMod])
  exact foldl_hstep_ne suf (hstep_lt _ _) (hstep_lt _ _)
    (fun he => hne (hstep_inj_right hb₁ hb₂ he))

/-! ## Data model -/

/-- A segment of the token layout is either payload-carrying or filler. -/
inductive SegKind where
  | core
  | noise
  deriving DecidableEq, Repr

/-- Modelled from the spec: the Recipe Model's declarative description of
token shape (`{version, pattern, charset, randomize_noise, noise_variance}`). -/
structure Recipe where
  version : String
  pattern : List (SegKind × Nat)
  charset : List Char
  randomize_noise : Bool
  noise_variance : Nat
  deriving DecidableEq, Repr

/-- Modelled from the spec: engine configuration
`{master_secret, default_ttl, max_ttl, enable_audit_logging, debug}`,
immutable after construction.  The secret is a byte list. -/
structure Config where
  master_secret : List Nat
  default_ttl : Nat
  max_ttl : Nat
  enable_audit_logging : Bool
  debug : Bool
  deriving DecidableEq, Repr

/-- Modelled from the spec: construction-time configuration validity
(`master_secret` length at least 32 bytes, `default_ttl ≤ max_ttl`). -/
def configValid (cfg : Config) : Bool :=
  decide (32 ≤ cfg.master_secret.length) && decide (cfg.default_ttl ≤ cfg.max_ttl)

/-- Modelled from the spec: the token Payload
`{user_id, issued_at, expires_at, device_fingerprint, location,
usage_pattern, client_type}`. -/
structure Payload where
  user_id : String
  issued_at : Nat
  expires_at : Nat
  device_fingerprint : String
  location : String
  usage_pattern : String
  client_type : String
  deriving DecidableEq, Repr

/-- Caller-supplied device context; absent fields default to a neutral
placeholder at generation time. -/
structure DeviceInfo where
  fingerprint : Option String := none
  location : Option String := none
  pattern : Option String := none
  client_type : Option String := none
  deriving DecidableEq, Repr

/-- Modelled from the spec: device fields are "each field defaulted to a
neutral placeholder if absent". -/
def mkPayload (uid : String) (iat exp : Nat) (dev : DeviceInfo) : Payload where
  user_id := uid
  issued_at := iat
  expires_at := exp
  device_fingerprint := dev.fingerprint.getD "unknown"
  location := dev.location.getD "unknown"
  usage_pattern := dev.pattern.getD "unknown"
  client_type := dev.client_type.getD "unknown"

/-- Reasons of `TokenGenerationError`. -/
inductive GenErr where
  | emptyUserId
  | ttlOutOfRange
  | invalidRecipe
  | payloadTooLarge
  deriving DecidableEq, Repr

/-- Human-readable message of a `TokenGenerationError`, used by the batch
processor's error markers. -/
def genErrMsg : GenErr → String
  | .emptyUserId => "user_id must be a non-empty string"
  | .ttlOutOfRange => "ttl out of range"
  | .invalidRecipe => "invalid recipe"
  | .payloadTooLarge => "payload does not fit recipe core capacity"

/-- Reasons of `TokenValidationError`: programmatically distinguishable
`malformed`, `integrity`, `expired`, `user_mismatch`. -/
inductive VErr where
  | malformed
  | integrity
  | expired
  | user_mismatch
  deriving DecidableEq, Repr

/-- Message of a `TokenValidationError`, used by `verify_batch` outcomes. -/
def vErrMsg : VErr → String
  | .malformed => "malformed"
  | .integrity => "integrity"
  | .expired => "expired"
  | .user_mismatch => "user_mismatch"

/-- Codec-level failures: `MalformedToken` or `IntegrityError`. -/
inductive DecErr where
  | malformedTok
  | integrityErr
  deriving DecidableEq, Repr

/-- `BatchLimitExceeded`: the whole batch call fails. -/
inductive BatchErr where
  | batchLimitExceeded
  deriving DecidableEq, Repr

/-- Modelled from the spec: the Recipe Model "rejects empty patterns,
non-positive lengths, empty charset" and requires "at least one core
segment". -/
def recipeValid (r : Recipe) : Bool :=
  decide (r.pattern ≠ []) && r.pattern.all (fun s => decide (0 < s.2)) &&
    decide (r.charset ≠ []) && r.pattern.any (fun s => s.1 = SegKind.core)

/-! ## Canonical payload serialization

Modelled from the spec: the exact serialization is an open point the
implementer must fix ("an implementer must choose a canonical, versioned
encoding and document it").  We use: string fields are length-prefixed with
a fixed-width 4-digit decimal; the two timestamps are fixed-width 12-digit
decimals; fields appear in declaration order. -/

/-- Serialize one string field: 4-digit decimal length, then the characters. -/
def serStrF (s : String) : List Char := padB 10 4 s.length ++ s.data

/-- Read one length-prefixed string field. -/
def parseStrF (cs : List Char) : Option (String × List Char) :=
  match parseB 10 4 cs with
  | none => none
  | some (n, rest) =>
    if n ≤ rest.length then some (String.mk (rest.take n), rest.drop n) else none

/-- Canonical serialization of a payload (the "compact core
representation" of the Token Codec). -/
def serPayload (p : Payload) : List Char :=
  serStrF p.user_id ++ padB 10 12 p.issued_at ++ padB 10 12 p.expires_at ++
    serStrF p.device_fingerprint ++ serStrF p.location ++
    serStrF p.usage_pattern ++ serStrF p.client_type

/-- Read back a serialized payload; returns the payload and the unconsumed
remainder (the codec's padding). -/
def parsePayload (cs : List Char) : Option (Payload × List Char) :=
  match parseStrF cs with
  | none => none
  | some (uid, r1) =>
    match parseB 10 12 r1 with
    | none => none
    | some (iat, r2) =>
      match parseB 10 12 r2 with
      | none => none
      | some (exp, r3) =>
        match parseStrF r3 with
        | none => none
        | some (fp, r4) =>
          match parseStrF r4 with
          | none => none
          | some (loc, r5) =>
            match parseStrF r5 with
            | none => none
            | some (up, r6) =>
              match parseStrF r6 with
              | none => none
              | some (ct, r7) => some (⟨uid, iat, exp, fp, loc, up, ct⟩, r7)

/-- Width bounds under which the canonical encoding is exact: every string
field shorter than `10 ^ 4` characters and both timestamps below `10 ^ 12`. -/
def fieldsOk (p : Payload) : Bool :=
  decide (p.user_id.length < 10 ^ 4) && decide (p.issued_at < 10 ^ 12) &&
    decide (p.expires_at < 10 ^ 12) && decide (p.device_fingerprint.length < 10 ^ 4) &&
    decide (p.location.length < 10 ^ 4) && decide (p.usage_pattern.length < 10 ^ 4) &&
    decide (p.client_type.length < 10 ^ 4)

theorem parseStrF_serStrF (s : String) (hs : s.length < 10 ^ 4) (rest : List Char) :
    parseStrF (serStrF s ++ rest) = some (s, rest) := by
  unfold parseStrF serStrF
  rw [List.append_assoc, parseB_padB (by omega) (by omega) 4 s.length hs]
  have hds : s.data.length = s.length := rfl
  have hlen : s.length ≤ (s.data ++ rest).length := by
    rw [List.length_append, hds]; omega
  simp only [hlen, if_true]
  rw [← hds, List.take_left, List.drop_left]

theorem parsePayload_serPayload (p : Payload) (hp : fieldsOk p = true) (rest : List Char) :
    parsePayload (serPayload p ++ rest) = some (p, rest) := by
  unfold fieldsOk at hp
  simp only [Bool.and_eq_true, decide_eq_true_eq] at hp
  obtain ⟨⟨⟨⟨⟨⟨h1, h2⟩, h3⟩, h4⟩, h5⟩, h6⟩, h7⟩ := hp
  simp only [parsePayload, serPayload, List.append_assoc,
    parseStrF_serStrF _ h1, parseB_padB (by omega : 2 ≤ 10) (by omega : 10 ≤ 16) 12 _ h2,
    parseB_padB (by omega : 2 ≤ 10) (by omega : 10 ≤ 16) 12 _ h3,
    parseStrF_serStrF _ h4, parseStrF_serStrF _ h5,
    parseStrF_serStrF _ h6, parseStrF_serStrF _ h7]

/-! ## Segment layout, noise, token assembly and extraction -/

/-- Character scalar values of a string, fed to the keyed hash. -/
def codesS (s : String) : List Nat := s.data.map Char.toNat

/-- Modelled from the spec: the actual length of the `i`-th segment when it
is a noise segment — the declared length plus a variance delta
("length per segment ± up to `noise_variance`, using a noise source
impractical to predict without the secret").  The delta is derived from the
secret, the recipe version and the segment index, so the decoder (which
holds the secret) can realign segment boundaries. -/
def nLenOf (secret : List Nat) (version : String) (variance i L : Nat) : Nat :=
  L + hsh (secret ++ codesS version ++ [i]) % (variance + 1)

/-- Modelled from the spec: filler characters "drawn from the recipe
charset", keyed by the secret, the noise seed and the position. -/
def noiseFill (charset : List Char) (secret : List Nat) (seed i L : Nat) : List Char :=
  (List.range L).map
    (fun k => charset.getD (hsh (secret ++ [seed, i, k]) % charset.length) 'x')

/-- The effective segment layout of a recipe: pattern entries with their
index and their actual on-token length (core segments keep their declared
length; noise segments get the variance-adjusted length). -/
def enumLayout (r : Recipe) (secret : List Nat) : List (Nat × SegKind × Nat) :=
  r.pattern.enum.map
    (fun e =>
      (e.1, e.2.1,
        match e.2.1 with
        | SegKind.core => e.2.2
        | SegKind.noise => nLenOf secret r.version r.noise_variance e.1 e.2.2))

/-- Total core capacity of a layout (sum of core segment lengths). -/
def capOf : List (Nat × SegKind × Nat) → Nat
  | [] => 0
  | (_, SegKind.core, L) :: segs => L + capOf segs
  | (_, SegKind.noise, _) :: segs => capOf segs

/-- Total on-token length of a layout. -/
def totLen : List (Nat × SegKind × Nat) → Nat
  | [] => 0
  | (_, _, L) :: segs => L + totLen segs

/-- Modelled from the spec: the encoder "concatenates payload+tag into the
recipe's core segments" and "interleaves ... filler characters into the
noise segments at the positions dictated by the pattern". -/
def fillSegs (charset : List Char) (secret : List Nat) (seed : Nat) :
    List (Nat × SegKind × Nat) → List Char → List Char
  | [], _ => []
  | (_, SegKind.core, L) :: segs, core =>
    core.take L ++ fillSegs charset secret seed segs (core.drop L)
  | (i, SegKind.noise, L) :: segs, core =>
    noiseFill charset secret seed i L ++ fillSegs charset secret seed segs core

/-- Modelled from the spec: the decoder "reverses segment extraction per the
pattern (ignoring noise segments), recovers the core bytes", and fails when
"segment boundaries don't align with the expected total length". -/
def extractSegs : List (Nat × SegKind × Nat) → List Char → Option (List Char)
  | [], cs => if cs.isEmpty then some [] else none
  | (_, SegKind.core, L) :: segs, cs =>
    if L ≤ cs.length then
      match extractSegs segs (cs.drop L) with
      | none => none
      | some rest => some (cs.take L ++ rest)
    else none
  | (_, SegKind.noise, L) :: segs, cs =>
    if L ≤ cs.length then extractSegs segs (cs.drop L) else none

theorem length_noiseFill (charset : List Char) (secret : List Nat) (seed i L : Nat) :
    (noiseFill charset secret seed i L).length = L := by
  simp [noiseFill]

theorem length_fillSegs (charset : List Char) (secret : List Nat) (seed : Nat) :
    ∀ (segs : List (Nat × SegKind × Nat)) (core : List Char),
      core.length = capOf segs →
      (fillSegs charset secret seed segs core).length = totLen segs := by
  intro segs
  induction segs with
  | nil => intro core h; simp [fillSegs, totLen]
  | cons s segs ih =>
    intro core h
    obtain ⟨i, k, L⟩ := s
    cases k with
    | core =>
      simp only [fillSegs, totLen, List.length_append, List.length_take]
      rw [ih (core.drop L) (by simp [capOf] at h ⊢; omega)]
      simp [capOf] at h
      omega
    | noise =>
      simp only [fillSegs, totLen, List.length_append, length_noiseFill]
      rw [ih core (by simpa [capOf] using h)]

theorem drop_append_len {α : Type} {l₁ l₂ : List α} {n : Nat} (h : l₁.length = n) :
    (l₁ ++ l₂).drop n = l₂ := by
  subst h; exact List.drop_left _ _

theorem take_append_len {α : Type} {l₁ l₂ : List α} {n : Nat} (h : l₁.length = n) :
    (l₁ ++ l₂).take n = l₁ := by
  subst h; exact List.take_left _ _

theorem extractSegs_fillSegs (charset : List Char) (secret : List Nat) (seed : Nat) :
    ∀ (segs : List (Nat × SegKind × Nat)) (core : List Char),
      core.length = capOf segs →
      extractSegs segs (fillSegs charset secret seed segs core) = some core := by
  intro segs
  induction segs with
  | nil =>
    intro core h
    simp only [capOf] at h
    have : core = [] := List.length_eq_zero.mp h
    subst this
    simp [fillSegs, extractSegs]
  | cons s segs ih =>
    intro core h
    obtain ⟨i, k, L⟩ := s
    cases k with
    | core =>
      simp only [capOf] at h
      have hL : L ≤ core.length := by omega
      have htk : (core.take L).length = L := by simp; omega
      have hfl : (fillSegs charset secret seed segs (core.drop L)).length = totLen segs :=
        length_fillSegs charset secret seed segs (core.drop L) (by simp; omega)
      simp only [fillSegs, extractSegs]
      rw [if_pos (by rw [List.length_append, htk, hfl]; omega)]
      rw [drop_append_len htk, take_append_len htk, ih (core.drop L) (by simp; omega)]
      simp [List.take_append_drop]
    | noise =>
      simp only [capOf] at h
      have hnl : (noiseFill charset secret seed i L).length = L :=
        length_noiseFill charset secret seed i L
      have hfl : (fillSegs charset secret seed segs core).length = totLen segs :=
        length_fillSegs charset secret seed segs core (by simpa using h)
      simp only [fillSegs, extractSegs]
      rw [if_pos (by rw [List.length_append, hnl, hfl]; omega)]
      rw [drop_append_len hnl, ih core (by simpa using h)]

/-! ## Positions of a token: core vs noise -/

/-- Whether the `i`-th character of a token with the given layout belongs to
a core segment. -/
def posIsCore : List (Nat × SegKind × Nat) → Nat → Bool
  | [], _ => false
  | (_, k, L) :: segs, i =>
    if i < L then decide (k = SegKind.core) else posIsCore segs (i - L)

/-- The offset inside the concatenated core content corresponding to a
core position of the token. -/
def coreOff : List (Nat × SegKind × Nat) → Nat → Nat
  | [], _ => 0
  | (_, SegKind.core, L) :: segs, i => if i < L then i else L + coreOff segs (i - L)
  | (_, SegKind.noise, L) :: segs, i => if i < L then 0 else coreOff segs (i - L)

theorem posIsCore_lt_totLen :
    ∀ (segs : List (Nat × SegKind × Nat)) (i : Nat), posIsCore segs i = true → i < totLen segs := by
  intro segs
  induction segs with
  | nil => intro i h; simp [posIsCore] at h
  | cons s segs ih =>
    intro i h
    obtain ⟨j, k, L⟩ := s
    simp only [posIsCore] at h
    simp only [totLen]
    by_cases hi : i < L
    · omega
    · rw [if_neg hi] at h
      have := ih _ h
      omega

theorem coreOff_lt_cap :
    ∀ (segs : List (Nat × SegKind × Nat)) (i : Nat),
      posIsCore segs i = true → coreOff segs i < capOf segs := by
  intro segs
  induction segs with
  | nil => intro i h; simp [posIsCore] at h
  | cons s segs ih =>
    intro i h
    obtain ⟨j, k, L⟩ := s
    simp only [posIsCore] at h
    by_cases hi : i < L
    · rw [if_pos hi, decide_eq_true_eq] at h
      subst h
      simp only [coreOff, capOf, if_pos hi]
      omega
    · rw [if_neg hi] at h
      have := ih _ h
      cases k with
      | core => simp only [coreOff, capOf, if_neg hi]; omega
      | noise => simp only [coreOff, capOf, if_neg hi]; omega

theorem getD_append_left {α : Type} {l₁ l₂ : List α} {i : Nat} (d : α)
    (h : i < l₁.length) : (l₁ ++ l₂).getD i d = l₁.getD i d := by
  simp [List.getD, List.getElem?_append_left h]

theorem getD_append_right {α : Type} {l₁ l₂ : List α} {i : Nat} (d : α)
    (h : l₁.length ≤ i) : (l₁ ++ l₂).getD i d = l₂.getD (i - l₁.length) d := by
  simp [List.getD, List.getElem?_append_right h]

theorem getD_take_lt {α : Type} {l : List α} {i n : Nat} (d : α) (h : i < n) :
    (l.take n).getD i d = l.getD i d := by
  simp [List.getD, List.getElem?_take, h]

theorem getD_drop {α : Type} (l : List α) (n i : Nat) (d : α) :
    (l.drop n).getD i d = l.getD (n + i) d := by
  simp [List.getD, List.getElem?_drop]

/-- Setting a character at a core position of an assembled token is the same
as assembling the token from the core content modified at the matching
offset. -/
theorem fillSegs_set_core (charset : List Char) (secret : List Nat) (seed : Nat) :
    ∀ (segs : List (Nat × SegKind × Nat)) (core : List Char) (i : Nat) (c' : Char),
      posIsCore segs i = true → core.length = capOf segs →
      (fillSegs charset secret seed segs core).set i c'
        = fillSegs charset secret seed segs (core.set (coreOff segs i) c') := by
  intro segs
  induction segs with
  | nil => intro core i c' h _; simp [posIsCore] at h
  | cons s segs ih =>
    intro core i c' h hlen
    obtain ⟨j, k, L⟩ := s
    simp only [posIsCore] at h
    by_cases hi : i < L
    · rw [if_pos hi, decide_eq_true_eq] at h
      subst h
      simp only [capOf] at hlen
      have htk : (core.take L).length = L := by simp; omega
      simp only [fillSegs, coreOff, if_pos hi]
      rw [List.set_append_left _ _ (by omega), ← List.set_take,
        List.drop_set, if_pos hi]
    · rw [if_neg hi] at h
      cases k with
      | core =>
        simp only [capOf] at hlen
        have htk : (core.take L).length = L := by simp; omega
        simp only [fillSegs, coreOff, if_neg hi]
        rw [List.set_append_right _ _ (by omega), htk,
          ih (core.drop L) (i - L) c' h (by simp; omega)]
        have h1 : (core.set (L + coreOff segs (i - L)) c').take L = core.take L := by
          rw [List.set_take, List.set_eq_of_length_le (by rw [htk]; omega)]
        have h2 : (core.set (L + coreOff segs (i - L)) c').drop L
            = (core.drop L).set (coreOff segs (i - L)) c' := by
          rw [List.drop_set, if_neg (by omega)]
          congr 1
          omega
        rw [h1, h2]
      | noise =>
        simp only [capOf] at hlen
        have hnl : (noiseFill charset secret seed j L).length = L :=
          length_noiseFill charset secret seed j L
        simp only [fillSegs, coreOff, if_neg hi]
        rw [List.set_append_right _ _ (by omega), hnl,
          ih core (i - L) c' h (by omega)]

/-- Setting a character at a noise position of an assembled token does not
change the extracted core content at all. -/
theorem extractSegs_set_noise (charset : List Char) (secret : List Nat) (seed : Nat) :
    ∀ (segs : List (Nat × SegKind × Nat)) (core : List Char) (i : Nat) (c' : Char),
      posIsCore segs i = false → core.length = capOf segs →
      extractSegs segs ((fillSegs charset secret seed segs core).set i c') = some core := by
  intro segs
  induction segs with
  | nil =>
    intro core i c' _ hlen
    simp only [capOf] at hlen
    have : core = [] := List.length_eq_zero.mp hlen
    subst this
    simp [fillSegs, extractSegs]
  | cons s segs ih =>
    intro core i c' h hlen
    obtain ⟨j, k, L⟩ := s
    simp only [posIsCore] at h
    cases k with
    | core =>
      simp only [capOf] at hlen
      have htk : (core.take L).length = L := by simp; omega
      by_cases hi : i < L
      · rw [if_pos hi] at h; simp at h
      · rw [if_neg hi] at h
        have hfl : (fillSegs charset secret seed segs (core.drop L)).length = totLen segs :=
          length_fillSegs charset secret seed segs (core.drop L) (by simp; omega)
        simp only [fillSegs, extractSegs]
        rw [List.set_append_right _ _ (by omega), htk,
          if_pos (by rw [List.length_append, htk, List.length_set]; omega)]
        rw [drop_append_len htk, take_append_len htk, ih (core.drop L) (i - L) c' h
          (by simp; omega)]
        simp [List.take_append_drop]
    | noise =>
      simp only [capOf] at hlen
      have hnl : (noiseFill charset secret seed j L).length = L :=
        length_noiseFill charset secret seed j L
      by_cases hi : i < L
      · have hsl : ((noiseFill charset secret seed j L).set i c').length = L := by
          simp [hnl]
        simp only [fillSegs, extractSegs]
        rw [List.set_append_left _ _ (by omega),
          if_pos (by rw [List.length_append, hsl]
                     have := length_fillSegs charset secret seed segs core (by omega)
                     omega)]
        rw [drop_append_len hsl]
        exact extractSegs_fillSegs charset secret seed segs core (by omega)
      · rw [if_neg hi] at h
        simp only [fillSegs, extractSegs]
        rw [List.set_append_right _ _ (by omega), hnl,
          if_pos (by rw [List.length_append, hnl]
                     have h1 : ((fillSegs charset secret seed segs core).set (i - L) c').length
                       = totLen segs := by
                       rw [List.length_set]
                       exact length_fillSegs charset secret seed segs core (by omega)
                     omega)]
        rw [drop_append_len hnl]
        exact ih core (i - L) c' h (by omega)

/-- Reading an assembled token at a core position reads the core content at
the matching offset (used for the recipe determinism property). -/
theorem fillSegs_getD_core (charset : List Char) (secret : List Nat) (seed : Nat) :
    ∀ (segs : List (Nat × SegKind × Nat)) (core : List Char) (i : Nat) (d : Char),
      posIsCore segs i = true → core.length = capOf segs →
      (fillSegs charset secret seed segs core).getD i d
        = core.getD (coreOff segs i) d := by
  intro segs
  induction segs with
  | nil => intro core i d h _; simp [posIsCore] at h
  | cons s segs ih =>
    intro core i d h hlen
    obtain ⟨j, k, L⟩ := s
    simp only [posIsCore] at h
    by_cases hi : i < L
    · rw [if_pos hi, decide_eq_true_eq] at h
      subst h
      simp only [capOf] at hlen
      have htk : (core.take L).length = L := by simp; omega
      simp only [fillSegs, coreOff, if_pos hi]
      rw [getD_append_left _ (by omega), getD_take_lt _ hi]
    · rw [if_neg hi] at h
      cases k with
      | core =>
        simp only [capOf] at hlen
        have htk : (core.take L).length = L := by simp; omega
        simp only [fillSegs, coreOff, if_neg hi]
        rw [getD_append_right _ (by omega), htk,
          ih (core.drop L) (i - L) d h (by simp; omega), getD_drop]
      | noise =>
        simp only [capOf] at hlen
        have hnl : (noiseFill charset secret seed j L).length = L :=
          length_noiseFill charset secret seed j L
        simp only [fillSegs, coreOff, if_neg hi]
        rw [getD_append_right _ (by omega), hnl, ih core (i - L) d h (by omega)]

/-! ## Token Codec: encode / decode -/

/-- Modelled from the spec: the message-authentication tag of the Token
Codec, keyed by the master secret, over the serialized payload (padded to
the core capacity; the expiry is part of the serialized payload) and the
recipe version marker, rendered as 8 hex characters.  Noise is never
covered by the tag. -/
def macTag (secret : List Nat) (body : List Char) (version : String) : List Char :=
  padB 16 8 (hsh (secret ++ body.map Char.toNat ++ codesS version ++ secret))

/-- The padding character filling the core capacity after the serialized
payload. -/
def padChar : Char := '='

/-- The padded serialized payload filling the core capacity up to the tag. -/
def bodyOf (r : Recipe) (secret : List Nat) (p : Payload) : List Char :=
  serPayload p ++
    List.replicate (capOf (enumLayout r secret) - 8 - (serPayload p).length) padChar

/-- The full core content of a token: padded serialized payload plus tag. -/
def coreOf (r : Recipe) (secret : List Nat) (p : Payload) : List Char :=
  bodyOf r secret p ++ macTag secret (bodyOf r secret p) r.version

/-- The assembled token of a payload under a recipe, secret and noise seed
(`randomize_noise = false` pins the seed, making filler deterministic). -/
def tokOf (r : Recipe) (secret : List Nat) (seed : Nat) (p : Payload) : List Char :=
  fillSegs r.charset secret (if r.randomize_noise then seed else 0)
    (enumLayout r secret) (coreOf r secret p)

/-- Modelled from the spec: `encode(payload, recipe, secret) → token_string`.
Serializes the payload into the compact core representation, pads it to the
recipe's core capacity, appends the 8-character tag, distributes the result
over the core segments and interleaves noise.  When `randomize_noise` is
false the filler is deterministic (seed ignored); `none` when the encoded
payload plus tag exceeds the recipe's total core capacity. -/
def encode (r : Recipe) (secret : List Nat) (seed : Nat) (p : Payload) :
    Option (List Char) :=
  if fieldsOk p && decide ((serPayload p).length + 8 ≤ capOf (enumLayout r secret)) then
    some (tokOf r secret seed p)
  else none

/-- Modelled from the spec: `decode(token_string, recipe, secret) → payload`,
failing with `MalformedToken` when segment boundaries do not align with the
expected total length (or the core bytes do not parse back), and with
`IntegrityError` when the recomputed tag differs from the stored one. -/
def decode (r : Recipe) (secret : List Nat) (tok : List Char) : Except DecErr Payload :=
  match extractSegs (enumLayout r secret) tok with
  | none => .error .malformedTok
  | some core =>
    match parsePayload (core.take (capOf (enumLayout r secret) - 8)) with
    | none => .error .malformedTok
    | some (p, rest) =>
      if rest.all (fun c => c = padChar) then
        if core.drop (capOf (enumLayout r secret) - 8)
            = macTag secret (core.take (capOf (enumLayout r secret) - 8)) r.version then
          .ok p
        else .error .integrityErr
      else .error .malformedTok

/-! ## Token Engine: generate / verify / refresh -/

/-- Modelled from the spec: `generate(user_id, ttl?, device_info?,
custom_recipe?) → token`.  Fails with `TokenGenerationError` if `user_id`
is empty, or a ttl is provided with `ttl ≤ 0` or `ttl > max_ttl`, or the
recipe is invalid, or the payload does not fit the recipe; `ttl` defaults
to `config.default_ttl`; `issued_at = now()`,
`expires_at = issued_at + ttl`.  The clock value `now` and the noise seed
are explicit parameters. -/
def generate (cfg : Config) (r : Recipe) (uid : String) (ttl : Option Int)
    (dev : DeviceInfo) (now seed : Nat) : Except GenErr (List Char) :=
  if uid = "" then .error .emptyUserId
  else
    match ttl with
    | some t =>
      if t ≤ 0 ∨ t > (cfg.max_ttl : Int) then .error .ttlOutOfRange
      else
        if recipeValid r then
          match encode r cfg.master_secret seed (mkPayload uid now (now + t.toNat) dev) with
          | some tok => .ok tok
          | none => .error .payloadTooLarge
        else .error .invalidRecipe
    | none =>
      if recipeValid r then
        match encode r cfg.master_secret seed
            (mkPayload uid now (now + cfg.default_ttl) dev) with
        | some tok => .ok tok
        | none => .error .payloadTooLarge
      else .error .invalidRecipe

/-- Modelled from the spec: `verify(token, user_id, custom_recipe?) →
payload`, failing in order with `malformed`, `integrity`, `expired`
(`now() > payload.expires_at`), `user_mismatch`
(`payload.user_id ≠ user_id`). -/
def verify (cfg : Config) (r : Recipe) (tok : List Char) (uid : String)
    (now : Nat) : Except VErr Payload :=
  match decode r cfg.master_secret tok with
  | .error .malformedTok => .error .malformed
  | .error .integrityErr => .error .integrity
  | .ok p =>
    if now > p.expires_at then .error .expired
    else if p.user_id ≠ uid then .error .user_mismatch
    else .ok p

/-- Device context carried by a verified payload, re-used on refresh. -/
def devOf (p : Payload) : DeviceInfo where
  fingerprint := some p.device_fingerprint
  location := some p.location
  pattern := some p.usage_pattern
  client_type := some p.client_type

/-- Modelled from the spec: `refresh(token, user_id, threshold_seconds) →
new_token | none`.  Performs a full verify (failures propagate unchanged);
returns none when `expires_at - now() > threshold_seconds`; otherwise
generates a token for the same user, TTL and device context with
`issued_at` reset to `now()`.  (Re-generation of an engine-issued token
cannot fail; the `none` fallback on that branch is unreachable for them.) -/
def refresh (cfg : Config) (r : Recipe) (tok : List Char) (uid : String)
    (threshold now seed : Nat) : Except VErr (Option (List Char)) :=
  match verify cfg r tok uid now with
  | .error e => .error e
  | .ok p =>
    if p.expires_at - now > threshold then .ok none
    else
      match generate cfg r uid (some ((p.expires_at - p.issued_at : Nat) : Int))
          (devOf p) now seed with
      | .ok t => .ok (some t)
      | .error _ => .ok none

/-! ## Batch Processor -/

/-- One generation request of a batch. -/
structure GenReq where
  user_id : String
  ttl : Option Int := none
  device : DeviceInfo := {}
  deriving DecidableEq, Repr

instance : Inhabited GenReq := ⟨⟨"", none, {}⟩⟩

/-- One verification request of a batch. -/
structure VerifyReq where
  token : List Char
  user_id : String
  deriving DecidableEq, Repr

instance : Inhabited VerifyReq := ⟨⟨[], ""⟩⟩

/-- Outcome of one item of `verify_batch`: `{status: valid|invalid,
data|error}`. -/
inductive VOutcome where
  | valid (data : Payload)
  | invalid (error : String)
  deriving DecidableEq, Repr

/-- Modelled from the spec: the Community Edition batch size cap (50). -/
def batchLimit : Nat := 50

/-- The engine's default ("standard") recipe, used when no custom recipe is
supplied.  Modelled from the spec: the default recipe validates like any
custom one; its concrete shape is an implementation choice.  Its first
segment is a core segment, so every token it produces starts with the
serialized payload's leading length digit. -/
def defaultRecipe : Recipe where
  version := "community_v1"
  pattern := [(SegKind.core, 112), (SegKind.noise, 6), (SegKind.core, 8), (SegKind.noise, 6)]
  charset := "abcdefghijklmnopqrstuvwxyz0123456789".data
  randomize_noise := true
  noise_variance := 0

/-- The error marker placed in a failed item's output slot by
`generate_batch`: the string `"ERROR: "` followed by the failure message. -/
def errMarker (e : GenErr) : List Char := "ERROR: ".data ++ (genErrMsg e).data

/-- Processing of a single batch generation request (default recipe). -/
def genOutcome (cfg : Config) (now seed : Nat) (req : GenReq) : List Char :=
  match generate cfg defaultRecipe req.user_id req.ttl req.device now seed with
  | .ok tok => tok
  | .error e => errMarker e

/-- Modelled from the spec: `generate_batch(requests)`; exceeding the cap
fails the whole call with `BatchLimitExceeded` and processes no items;
within the cap, items are processed independently, a failure becoming an
error marker in its own output slot. -/
def generate_batch (cfg : Config) (reqs : List GenReq) (now seed : Nat) :
    Except BatchErr (List (List Char)) :=
  if reqs.length > batchLimit then .error .batchLimitExceeded
  else .ok (reqs.map (genOutcome cfg now seed))

/-- Processing of a single batch verification request (default recipe). -/
def vOutcome (cfg : Config) (now : Nat) (req : VerifyReq) : VOutcome :=
  match verify cfg defaultRecipe req.token req.user_id now with
  | .ok p => .valid p
  | .error e => .invalid (vErrMsg e)

/-- Modelled from the spec: `verify_batch(requests)` with the same limit and
isolation discipline as `generate_batch`. -/
def verify_batch (cfg : Config) (reqs : List VerifyReq) (now : Nat) :
    Except BatchErr (List VOutcome) :=
  if reqs.length > batchLimit then .error .batchLimitExceeded
  else .ok (reqs.map (vOutcome cfg now))

/-! ## Codec round-trip and inversion lemmas -/

/-- Shorthand: the payload fits the recipe's core capacity (the Recipe
Model's invariant "sum of core segment lengths must be sufficient to hold
the encoded payload + MAC"). -/
def fits (r : Recipe) (secret : List Nat) (p : Payload) : Prop :=
  (serPayload p).length + 8 ≤ capOf (enumLayout r secret)

instance (r : Recipe) (secret : List Nat) (p : Payload) :
    Decidable (fits r secret p) := by unfold fits; infer_instance

theorem length_macTag (secret : List Nat) (body : List Char) (version : String) :
    (macTag secret body version).length = 8 := length_padB 16 8 _

theorem length_bodyOf {r : Recipe} {secret : List Nat} {p : Payload}
    (hfit : fits r secret p) :
    (bodyOf r secret p).length = capOf (enumLayout r secret) - 8 := by
  unfold fits at hfit
  simp [bodyOf]
  omega

theorem length_coreOf {r : Recipe} {secret : List Nat} {p : Payload}
    (hfit : fits r secret p) :
    (coreOf r secret p).length = capOf (enumLayout r secret) := by
  unfold fits at hfit
  rw [coreOf, List.length_append, length_bodyOf hfit, length_macTag]
  omega

theorem encode_eq_some {r : Recipe} {secret : List Nat} {seed : Nat} {p : Payload}
    {tok : List Char} (h : encode r secret seed p = some tok) :
    fieldsOk p = true ∧ fits r secret p ∧ tok = tokOf r secret seed p := by
  unfold encode at h
  by_cases hc : (fieldsOk p && decide ((serPayload p).length + 8 ≤
      capOf (enumLayout r secret))) = true
  · rw [if_pos hc] at h
    simp only [Bool.and_eq_true, decide_eq_true_eq] at hc
    exact ⟨hc.1, hc.2, (Option.some.inj h).symm⟩
  · rw [if_neg hc] at h
    exact absurd h (by simp)

theorem encode_ok {r : Recipe} {secret : List Nat} (seed : Nat) {p : Payload}
    (hp : fieldsOk p = true) (hfit : fits r secret p) :
    encode r secret seed p = some (tokOf r secret seed p) := by
  unfold encode
  rw [if_pos (by simp only [hp, Bool.true_and, decide_eq_true_eq]; exact hfit)]

/-- The codec round-trip: decoding an encoded token recovers exactly the
payload that was encoded, whatever the noise seed. -/
theorem decode_tokOf {r : Recipe} {secret : List Nat} {p : Payload} (seed : Nat)
    (hp : fieldsOk p = true) (hfit : fits r secret p) :
    decode r secret (tokOf r secret seed p) = .ok p := by
  have hcap8 : 8 ≤ capOf (enumLayout r secret) := by
    unfold fits at hfit; omega
  have hcore : (coreOf r secret p).length = capOf (enumLayout r secret) :=
    length_coreOf hfit
  unfold decode tokOf
  rw [extractSegs_fillSegs _ _ _ _ _ hcore]
  have hb : (bodyOf r secret p).length = capOf (enumLayout r secret) - 8 :=
    length_bodyOf hfit
  have htake : (coreOf r secret p).take (capOf (enumLayout r secret) - 8)
      = bodyOf r secret p := by
    rw [coreOf, take_append_len hb]
  have hdrop : (coreOf r secret p).drop (capOf (enumLayout r secret) - 8)
      = macTag secret (bodyOf r secret p) r.version := by
    rw [coreOf, drop_append_len hb]
  simp only [htake, hdrop]
  rw [bodyOf, parsePayload_serPayload p hp]
  simp [List.all_eq_true, List.eq_of_mem_replicate]

/-- Inversion of a successful `generate` with an explicit ttl. -/
theorem generate_eq_ok {cfg : Config} {r : Recipe} {uid : String} {t : Int}
    {dev : DeviceInfo} {now seed : Nat} {tok : List Char}
    (h : generate cfg r uid (some t) dev now seed = .ok tok) :
    uid ≠ "" ∧ 0 < t ∧ t ≤ (cfg.max_ttl : Int) ∧ recipeValid r = true ∧
      fieldsOk (mkPayload uid now (now + t.toNat) dev) = true ∧
      fits r cfg.master_secret (mkPayload uid now (now + t.toNat) dev) ∧
      tok = tokOf r cfg.master_secret seed (mkPayload uid now (now + t.toNat) dev) := by
  unfold generate at h
  by_cases hu : uid = ""
  · rw [if_pos hu] at h; exact absurd h (by simp)
  · rw [if_neg hu] at h
    simp only at h
    by_cases ht : t ≤ 0 ∨ t > (cfg.max_ttl : Int)
    · rw [if_pos ht] at h; exact absurd h (by simp)
    · rw [if_neg ht] at h
      push_neg at ht
      by_cases hv : recipeValid r = true
      · rw [if_pos hv] at h
        match henc : encode r cfg.master_secret seed
            (mkPayload uid now (now + t.toNat) dev) with
        | some tok' =>
          rw [henc] at h
          obtain ⟨hp, hfit, htok⟩ := encode_eq_some henc
          have : tok = tok' := by
            cases h; rfl
          subst this
          exact ⟨hu, ht.1, ht.2, hv, hp, hfit, htok⟩
        | none => rw [henc] at h; exact absurd h (by simp)
      · rw [if_neg hv] at h; exact absurd h (by simp)

/-- A successful `generate` with an explicit ttl produces exactly the
assembled token of the payload built at generation time. -/
theorem generate_ok {cfg : Config} {r : Recipe} {uid : String} {t : Int}
    {dev : DeviceInfo} (now seed : Nat) (hu : uid ≠ "") (h0 : 0 < t)
    (hmax : t ≤ (cfg.max_ttl : Int)) (hv : recipeValid r = true)
    (hp : fieldsOk (mkPayload uid now (now + t.toNat) dev) = true)
    (hfit : fits r cfg.master_secret (mkPayload uid now (now + t.toNat) dev)) :
    generate cfg r uid (some t) dev now seed
      = .ok (tokOf r cfg.master_secret seed (mkPayload uid now (now + t.toNat) dev)) := by
  unfold generate
  rw [if_neg hu]
  simp only
  rw [if_neg (by push_neg; omega), if_pos hv, encode_ok seed hp hfit]

/-- Verification of a generated token at an unexpired instant for the right
user returns the generation-time payload. -/
theorem verify_tokOf {cfg : Config} {r : Recipe} {p : Payload} (seed : Nat)
    (hp : fieldsOk p = true) (hfit : fits r cfg.master_secret p) {n : Nat}
    (hexp : n ≤ p.expires_at) :
    verify cfg r (tokOf r cfg.master_secret seed p) p.user_id n = .ok p := by
  unfold verify
  rw [decode_tokOf seed hp hfit]
  simp only [if_neg (by omega : ¬ n > p.expires_at)]
  simp

/-! ## Tamper sensitivity -/

theorem getD_set_self {α : Type} {l : List α} {i : Nat} (a d : α) (h : i < l.length) :
    (l.set i a).getD i d = a := by
  simp [List.getD, List.getElem?_set_self', List.getElem?_eq_getElem h]

theorem set_getD_self {α : Type} {l : List α} {i : Nat} (d : α) (h : i < l.length) :
    l.set i (l.getD i d) = l := by
  induction l generalizing i with
  | nil => simp at h
  | cons x xs ih =>
    cases i with
    | zero => simp [List.getD]
    | succ n =>
      simp only [List.length_cons, Nat.add_lt_add_iff_right] at h
      simp only [List.getD, List.get?_cons_succ, List.set]
      have := @ih n h
      simp only [List.getD] at this
      rw [this]

theorem set_ne_self_of_getD_ne {α : Type} {l : List α} {i : Nat} {a : α} (d : α)
    (h : i < l.length) (hne : a ≠ l.getD i d) : l.set i a ≠ l := by
  intro heq
  have h1 : (l.set i a).getD i d = a := getD_set_self a d h
  rw [heq] at h1
  exact hne h1.symm

theorem char_toNat_inj {a b : Char} (h : a.toNat = b.toNat) : a = b :=
  Char.eq_of_val_eq (UInt32.eq_of_toBitVec_eq (BitVec.eq_of_toNat_eq h))

theorem char_toNat_lt (c : Char) : c.toNat < hashMod := c.val.toBitVec.isLt

/-- Substituting one character of the tagged body always changes the tag. -/
theorem macTag_set_ne (secret : List Nat) (body : List Char) (version : String)
    {o : Nat} {c' : Char} (ho : o < body.length) (hne : c' ≠ body.getD o ' ') :
    macTag secret (body.set o c') version ≠ macTag secret body version := by
  set b0 : Char := body.getD o ' ' with hb0
  have hbody : body = body.set o b0 := (set_getD_self ' ' ho).symm
  have hdecomp : ∀ x : Char, body.set o x = body.take o ++ x :: body.drop (o + 1) := by
    intro x
    rw [List.set_eq_take_append_cons_drop, if_pos ho]
  have hmap : ∀ x : Char, (body.set o x).map Char.toNat
      = (body.take o).map Char.toNat ++ x.toNat :: (body.drop (o + 1)).map Char.toNat := by
    intro x
    rw [hdecomp x]
    simp
  have hne' : c'.toNat ≠ b0.toNat := fun hc => hne (char_toNat_inj hc)
  have hhsh : hsh (secret ++ (body.set o c').map Char.toNat ++ codesS version ++ secret)
      ≠ hsh (secret ++ (body.set o b0).map Char.toNat ++ codesS version ++ secret) := by
    rw [hmap c', hmap b0]
    have e1 : ∀ x : Char,
        secret ++ ((body.take o).map Char.toNat ++ x.toNat ::
          (body.drop (o + 1)).map Char.toNat) ++ codesS version ++ secret
        = (secret ++ (body.take o).map Char.toNat) ++ x.toNat ::
          ((body.drop (o + 1)).map Char.toNat ++ codesS version ++ secret) := by
      intro x
      simp [List.append_assoc]
    rw [e1 c', e1 b0]
    exact hsh_single_sub_ne _ _ (char_toNat_lt c') (char_toNat_lt b0) hne'
  intro htag
  apply hhsh
  have h16 : (16 : Nat) ^ 8 = hashMod := by decide
  apply @padB_inj 16 (by omega) (by omega) 8 _ _
    (h16 ▸ hsh_lt _) (h16 ▸ hsh_lt _)
  have := htag
  unfold macTag at this
  rw [hbody] at this
  convert this using 3
  rw [← hbody]

theorem decode_extract {r : Recipe} {secret : List Nat} {tok core : List Char}
    (h : extractSegs (enumLayout r secret) tok = some core) :
    decode r secret tok
      = (match parsePayload (core.take (capOf (enumLayout r secret) - 8)) with
        | none => .error .malformedTok
        | some (p, rest) =>
          if rest.all (fun c => c = padChar) then
            if core.drop (capOf (enumLayout r secret) - 8)
                = macTag secret (core.take (capOf (enumLayout r secret) - 8)) r.version then
              .ok p
            else .error .integrityErr
          else .error .malformedTok) := by
  unfold decode
  rw [h]

/-- Substituting one character of the core content at any offset makes
decoding fail (with `MalformedToken` or `IntegrityError`), for any noise
seed. -/
theorem decode_core_set {r : Recipe} {secret : List Nat} {p : Payload} (es : Nat)
    {o : Nat} {c' : Char} (hp : fieldsOk p = true) (hfit : fits r secret p)
    (ho : o < capOf (enumLayout r secret))
    (hne : c' ≠ (coreOf r secret p).getD o ' ') :
    decode r secret (fillSegs r.charset secret es (enumLayout r secret)
        ((coreOf r secret p).set o c')) = .error .malformedTok ∨
      decode r secret (fillSegs r.charset secret es (enumLayout r secret)
        ((coreOf r secret p).set o c')) = .error .integrityErr := by
  have hcap8 : 8 ≤ capOf (enumLayout r secret) := by
    unfold fits at hfit; omega
  have hb : (bodyOf r secret p).length = capOf (enumLayout r secret) - 8 :=
    length_bodyOf hfit
  have hT : (macTag secret (bodyOf r secret p) r.version).length = 8 := length_macTag _ _ _
  have hlen : ((coreOf r secret p).set o c').length = capOf (enumLayout r secret) := by
    rw [List.length_set]
    exact length_coreOf hfit
  have hextract : extractSegs (enumLayout r secret)
      (fillSegs r.charset secret es (enumLayout r secret) ((coreOf r secret p).set o c'))
      = some ((coreOf r secret p).set o c') :=
    extractSegs_fillSegs _ _ _ _ _ hlen
  have htake0 : (coreOf r secret p).take (capOf (enumLayout r secret) - 8)
      = bodyOf r secret p := by
    rw [coreOf, take_append_len hb]
  have hdrop0 : (coreOf r secret p).drop (capOf (enumLayout r secret) - 8)
      = macTag secret (bodyOf r secret p) r.version := by
    rw [coreOf, drop_append_len hb]
  rw [decode_extract hextract]
  by_cases hcase : o < capOf (enumLayout r secret) - 8
  · -- the flip lands in the serialized-payload part of the core
    have htake : ((coreOf r secret p).set o c').take (capOf (enumLayout r secret) - 8)
        = (bodyOf r secret p).set o c' := by
      rw [List.set_take, htake0]
    have hdrop : ((coreOf r secret p).set o c').drop (capOf (enumLayout r secret) - 8)
        = macTag secret (bodyOf r secret p) r.version := by
      rw [List.drop_set, if_pos hcase, hdrop0]
    rw [htake, hdrop]
    have hne' : c' ≠ (bodyOf r secret p).getD o ' ' := by
      rw [coreOf, getD_append_left _ (by omega)] at hne
      exact hne
    have htagne : macTag secret ((bodyOf r secret p).set o c') r.version
        ≠ macTag secret (bodyOf r secret p) r.version :=
      macTag_set_ne secret _ r.version (by omega) hne'
    cases hparse : parsePayload ((bodyOf r secret p).set o c') with
    | none => left; rfl
    | some pr =>
      obtain ⟨p', rest'⟩ := pr
      by_cases hpad : (rest'.all fun c => c = padChar) = true
      · right
        simp only [hpad, if_true]
        rw [if_neg (fun he => htagne he.symm)]
      · left
        simp [hpad]
  · -- the flip lands in the stored tag
    have hosub : o - (capOf (enumLayout r secret) - 8) < 8 := by omega
    have htake : ((coreOf r secret p).set o c').take (capOf (enumLayout r secret) - 8)
        = bodyOf r secret p := by
      rw [List.set_take, htake0, List.set_eq_of_length_le (by omega)]
    have hdrop : ((coreOf r secret p).set o c').drop (capOf (enumLayout r secret) - 8)
        = (macTag secret (bodyOf r secret p) r.version).set
            (o - (capOf (enumLayout r secret) - 8)) c' := by
      rw [List.drop_set, if_neg (by omega), hdrop0]
    rw [htake, hdrop]
    have hne' : c' ≠ (macTag secret (bodyOf r secret p) r.version).getD
        (o - (capOf (enumLayout r secret) - 8)) ' ' := by
      rw [coreOf, getD_append_right _ (by omega), hb] at hne
      exact hne
    have htagne : (macTag secret (bodyOf r secret p) r.version).set
        (o - (capOf (enumLayout r secret) - 8)) c'
        ≠ macTag secret (bodyOf r secret p) r.version :=
      set_ne_self_of_getD_ne ' ' (by omega) hne'
    right
    rw [bodyOf, parsePayload_serPayload p hp]
    simp only [List.all_eq_true]
    rw [if_pos (fun c hc => by simp [List.eq_of_mem_replicate hc])]
    rw [if_neg (by rw [← bodyOf]; exact htagne)]

theorem verify_of_decode_malformed {cfg : Config} {r : Recipe} {tok : List Char}
    {uid : String} {n : Nat} (h : decode r cfg.master_secret tok = .error .malformedTok) :
    verify cfg r tok uid n = .error .malformed := by
  unfold verify
  rw [h]

theorem verify_of_decode_integrity {cfg : Config} {r : Recipe} {tok : List Char}
    {uid : String} {n : Nat} (h : decode r cfg.master_secret tok = .error .integrityErr) :
    verify cfg r tok uid n = .error .integrity := by
  unfold verify
  rw [h]

theorem verify_of_decode_ok {cfg : Config} {r : Recipe} {tok : List Char}
    {uid : String} {n : Nat} {P : Payload} (h : decode r cfg.master_secret tok = .ok P) :
    verify cfg r tok uid n
      = if n > P.expires_at then .error .expired
        else if P.user_id ≠ uid then .error .user_mismatch else .ok P := by
  unfold verify
  rw [h]

/-! ## Further engine lemmas -/

/-- Inversion of a successful `generate` with a defaulted ttl. -/
theorem generate_eq_ok_none {cfg : Config} {r : Recipe} {uid : String}
    {dev : DeviceInfo} {now seed : Nat} {tok : List Char}
    (h : generate cfg r uid none dev now seed = .ok tok) :
    uid ≠ "" ∧ recipeValid r = true ∧
      fieldsOk (mkPayload uid now (now + cfg.default_ttl) dev) = true ∧
      fits r cfg.master_secret (mkPayload uid now (now + cfg.default_ttl) dev) ∧
      tok = tokOf r cfg.master_secret seed (mkPayload uid now (now + cfg.default_ttl) dev) := by
  unfold generate at h
  by_cases hu : uid = ""
  · rw [if_pos hu] at h; exact absurd h (by simp)
  · rw [if_neg hu] at h
    simp only at h
    by_cases hv : recipeValid r = true
    · rw [if_pos hv] at h
      match henc : encode r cfg.master_secret seed
          (mkPayload uid now (now + cfg.default_ttl) dev) with
      | some tok' =>
        rw [henc] at h
        obtain ⟨hp, hfit, htok⟩ := encode_eq_some henc
        have : tok = tok' := by cases h; rfl
        subst this
        exact ⟨hu, hv, hp, hfit, htok⟩
      | none => rw [henc] at h; exact absurd h (by simp)
    · rw [if_neg hv] at h; exact absurd h (by simp)

theorem length_serStrF (s : String) : (serStrF s).length = 4 + s.length := by
  rw [serStrF, List.length_append, length_padB]
  rfl

theorem length_serPayload (p : Payload) :
    (serPayload p).length = 44 + p.user_id.length + p.device_fingerprint.length
      + p.location.length + p.usage_pattern.length + p.client_type.length := by
  simp [serPayload, length_serStrF, length_padB]
  omega

/-- The token of a payload has the layout's total length. -/
theorem length_tokOf {r : Recipe} {secret : List Nat} {seed : Nat} {p : Payload}
    (hfit : fits r secret p) :
    (tokOf r secret seed p).length = totLen (enumLayout r secret) :=
  length_fillSegs _ _ _ _ _ (length_coreOf hfit)

/-- Two tokens of the same payload under different seeds agree at every
core position. -/
theorem tokOf_getD_core_eq {r : Recipe} {secret : List Nat} {p : Payload}
    (seed₁ seed₂ : Nat) (hfit : fits r secret p) {i : Nat}
    (hpos : posIsCore (enumLayout r secret) i = true) :
    (tokOf r secret seed₁ p).getD i ' ' = (tokOf r secret seed₂ p).getD i ' ' := by
  unfold tokOf
  rw [fillSegs_getD_core _ _ _ _ _ _ _ hpos (length_coreOf hfit),
    fillSegs_getD_core _ _ _ _ _ _ _ hpos (length_coreOf hfit)]

/-! ## Batch output discrimination -/

/-- Whether a character list starts with the five characters `ERROR`. -/
def startsWithERROR (l : List Char) : Bool :=
  if l.take 5 = ['E', 'R', 'R', 'O', 'R'] then true else false

/-- Whether an `Except` value is an error. -/
def isErrE {ε α : Type} : Except ε α → Bool
  | .error _ => true
  | .ok _ => false

theorem startsWithERROR_errMarker (e : GenErr) :
    startsWithERROR (errMarker e) = true := by
  cases e <;> decide

theorem startsWithERROR_getD0 {l : List Char} (h : startsWithERROR l = true) :
    l.getD 0 ' ' = 'E' := by
  unfold startsWithERROR at h
  by_cases h5 : l.take 5 = ['E', 'R', 'R', 'O', 'R']
  · have : l.getD 0 ' ' = (l.take 5).getD 0 ' ' := (getD_take_lt _ (by omega)).symm
    rw [this, h5]
    rfl
  · rw [if_neg h5] at h
    exact absurd h (by simp)

theorem digitChar_ne_E (m : Nat) : digitChar m ≠ 'E' := by
  unfold digitChar
  by_cases h : m < 16
  · interval_cases m <;> decide
  · rw [List.getD_eq_default _ _ (by rw [(by decide :
      ("0123456789abcdef".data).length = 16)]; omega)]
    decide

theorem padB_getD0_digit (b : Nat) :
    ∀ (w n : Nat), 0 < w → ∃ m, (padB b w n).getD 0 ' ' = digitChar m := by
  intro w
  induction w with
  | zero => intro n h; omega
  | succ w ih =>
    intro n _
    cases Nat.eq_zero_or_pos w with
    | inl hw =>
      subst hw
      exact ⟨n % b, rfl⟩
    | inr hw =>
      obtain ⟨m, hm⟩ := ih (n / b) hw
      refine ⟨m, ?_⟩
      rw [padB, getD_append_left _ (by rw [length_padB]; omega), hm]

/-- The default recipe's effective layout (its variance is 0, so noise
segments keep their declared lengths whatever the secret). -/
theorem enumLayout_default (secret : List Nat) :
    enumLayout defaultRecipe secret
      = [(0, SegKind.core, 112), (1, SegKind.noise, 6),
         (2, SegKind.core, 8), (3, SegKind.noise, 6)] := by
  simp [enumLayout, defaultRecipe, nLenOf, Nat.mod_one, List.enum, List.enumFrom]

/-- A token assembled under the default recipe starts with a decimal digit
(the first length digit of the serialized payload), never with `ERROR`. -/
theorem startsWithERROR_tokOf_default (secret : List Nat) (seed : Nat) (p : Payload)
    (hfit : fits defaultRecipe secret p) :
    startsWithERROR (tokOf defaultRecipe secret seed p) = false := by
  have hlay := enumLayout_default secret
  have hcap : capOf (enumLayout defaultRecipe secret) = 120 := by rw [hlay]; rfl
  have hcore : (coreOf defaultRecipe secret p).length = 120 := by
    rw [length_coreOf hfit, hcap]
  have hb : (bodyOf defaultRecipe secret p).length = 112 := by
    rw [length_bodyOf hfit, hcap]
  have hser : 0 < (serPayload p).length := by rw [length_serPayload]; omega
  obtain ⟨m, hm⟩ := padB_getD0_digit 10 4 p.user_id.length (by omega)
  have hget : (tokOf defaultRecipe secret seed p).getD 0 ' ' = digitChar m := by
    unfold tokOf
    rw [hlay]
    simp only [fillSegs]
    rw [getD_append_left _ (by rw [List.length_take, hcore]; omega),
      getD_take_lt _ (by omega)]
    unfold coreOf
    rw [getD_append_left _ (by rw [hb]; omega)]
    unfold bodyOf
    rw [getD_append_left _ hser]
    unfold serPayload serStrF
    simp only [List.append_assoc]
    rw [getD_append_left _ (by rw [length_padB]; omega), hm]
  apply Bool.eq_false_iff.mpr
  intro htrue
  have := startsWithERROR_getD0 htrue
  rw [hget] at this
  exact digitChar_ne_E m this

/-! ## Concrete instances used by witnesses and counterexamples -/

/-- A concrete valid configuration (32-byte secret). -/
def exCfg : Config where
  master_secret := List.range 32
  default_ttl := 1800
  max_ttl := 7200
  enable_audit_logging := false
  debug := false

/-- Unwrap a successful `Except`, with a fallback. -/
def getOk {ε α : Type} (x : Except ε α) (d : α) : α :=
  match x with
  | .ok a => a
  | .error _ => d

/-- The expiry carried by a verification result (0 on failure). -/
def expOf (x : Except VErr Payload) : Nat :=
  match x with
  | .ok p => p.expires_at
  | .error _ => 0

/-- The token returned by a refresh, `[]` when none was produced. -/
def getRefreshed (x : Except VErr (Option (List Char))) : List Char :=
  match x with
  | .ok (some t) => t
  | _ => []

/-! ## The claims -/

/-- C1: Round-trip — for every valid generation input (non-empty `user_id`,
ttl within `(0, max_ttl]`, valid recipe that fits the payload),
`verify(generate(user_id, ttl, device_info, recipe), user_id)` succeeds and
returns exactly the payload built at generation time (same `user_id`,
`issued_at`, `expires_at` and device fields). -/
theorem claim_C1_roundtrip (cfg : Config) (r : Recipe) (uid : String) (t : Int)
    (dev : DeviceInfo) (now seed : Nat) (hu : uid ≠ "") (h0 : 0 < t)
    (hmax : t ≤ (cfg.max_ttl : Int)) (hv : recipeValid r = true)
    (hp : fieldsOk (mkPayload uid now (now + t.toNat) dev) = true)
    (hfit : fits r cfg.master_secret (mkPayload uid now (now + t.toNat) dev)) :
    ∃ tok, generate cfg r uid (some t) dev now seed = .ok tok ∧
      verify cfg r tok uid now = .ok (mkPayload uid now (now + t.toNat) dev) := by
  refine ⟨_, generate_ok now seed hu h0 hmax hv hp hfit, ?_⟩
  exact verify_tokOf seed hp hfit (by show now ≤ now + t.toNat; omega)

theorem claim_C1_roundtrip_witness :
    ∃ tok, generate exCfg defaultRecipe "john_doe_123" (some 3600) {} 1700000000 7
        = .ok tok ∧
      verify exCfg defaultRecipe tok "john_doe_123" 1700000000
        = .ok (mkPayload "john_doe_123" 1700000000 (1700000000 + (3600 : Int).toNat) {}) :=
  claim_C1_roundtrip exCfg defaultRecipe "john_doe_123" 3600 {} 1700000000 7
    (by decide) (by decide) (by decide) (by decide) (by decide) (by decide)

/-- C3: Identity binding — a token generated for user A, verified with a
different claimed user B, fails with `user_mismatch`, even though the token
is structurally valid, correctly signed and unexpired. -/
theorem claim_C3_identity_binding (cfg : Config) (r : Recipe) (uidA uidB : String)
    (t : Int) (dev : DeviceInfo) (now seed : Nat) (tok : List Char) (n : Nat)
    (hgen : generate cfg r uidA (some t) dev now seed = .ok tok)
    (hne : uidB ≠ uidA) (hexp : n ≤ now + t.toNat) :
    verify cfg r tok uidB n = .error .user_mismatch := by
  obtain ⟨hu, h0, hmax, hv, hp, hfit, htok⟩ := generate_eq_ok hgen
  subst htok
  rw [verify_of_decode_ok (decode_tokOf seed hp hfit)]
  rw [if_neg (by show ¬ n > now + t.toNat; omega)]
  rw [if_pos (by show uidA ≠ uidB; exact fun h => hne h.symm)]

theorem claim_C3_identity_binding_witness :
    verify exCfg defaultRecipe
        (getOk (generate exCfg defaultRecipe "correct_user" (some 900) {} 1000 7) [])
        "wrong_user" 1200 = .error .user_mismatch :=
  claim_C3_identity_binding exCfg defaultRecipe "correct_user" "wrong_user" 900 {}
    1000 7 _ 1200 (by decide) (by decide) (by decide)

/-- C4: Expiry boundary — a token generated with ttl `t` verifies
successfully at `now = issued_at + t - 1` and fails with `expired` at
`now = issued_at + t + 1`; in general verification of the token (by its
own user) fails with `expired` exactly when the clock exceeds
`payload.expires_at`. -/
theorem claim_C4_expiry_boundary (cfg : Config) (r : Recipe) (uid : String)
    (t : Int) (dev : DeviceInfo) (now seed : Nat) (tok : List Char)
    (hgen : generate cfg r uid (some t) dev now seed = .ok tok) :
    verify cfg r tok uid (now + t.toNat - 1)
        = .ok (mkPayload uid now (now + t.toNat) dev) ∧
      verify cfg r tok uid (now + t.toNat + 1) = .error .expired ∧
      ∀ n, verify cfg r tok uid n = .error .expired ↔ now + t.toNat < n := by
  obtain ⟨hu, h0, hmax, hv, hp, hfit, htok⟩ := generate_eq_ok hgen
  subst htok
  refine ⟨verify_tokOf seed hp hfit (by show now + t.toNat - 1 ≤ now + t.toNat; omega),
    ?_, ?_⟩
  · rw [verify_of_decode_ok (decode_tokOf seed hp hfit)]
    rw [if_pos (by show now + t.toNat + 1 > now + t.toNat; omega)]
  · intro n
    constructor
    · intro h
      by_contra hn
      push_neg at hn
      have hok := @verify_tokOf cfg r _ seed hp hfit n
        (by show n ≤ now + t.toNat; omega)
      have := hok.symm.trans h
      simp at this
    · intro hlt
      rw [verify_of_decode_ok (decode_tokOf seed hp hfit)]
      rw [if_pos (by show n > now + t.toNat; omega)]

theorem claim_C4_expiry_boundary_witness :
    verify exCfg defaultRecipe
        (getOk (generate exCfg defaultRecipe "u" (some 600) {} 1000 7) []) "u"
        (1000 + (600 : Int).toNat - 1)
      = .ok (mkPayload "u" 1000 (1000 + (600 : Int).toNat) {}) ∧
    verify exCfg defaultRecipe
        (getOk (generate exCfg defaultRecipe "u" (some 600) {} 1000 7) []) "u"
        (1000 + (600 : Int).toNat + 1) = .error .expired ∧
    ∀ n, verify exCfg defaultRecipe
        (getOk (generate exCfg defaultRecipe "u" (some 600) {} 1000 7) []) "u" n
        = .error .expired ↔ 1000 + (600 : Int).toNat < n :=
  claim_C4_expiry_boundary exCfg defaultRecipe "u" 600 {} 1000 7 _ (by decide)

/-- C2 (amended): Tamper sensitivity of the signed part — replacing the
single character at any core-segment position of a generated token with any
different character makes `verify` fail with the `integrity` or `malformed`
reason (for any claimed user and any clock).  Noise-segment positions are
not covered by the tag (spec §4.2: "noise must never be covered by
signing"), so flips there are not detected; see the counterexample. -/
theorem claim_C2_tamper_core (cfg : Config) (r : Recipe) (uid : String) (t : Int)
    (dev : DeviceInfo) (now seed : Nat) (tok : List Char)
    (hgen : generate cfg r uid (some t) dev now seed = .ok tok)
    (i : Nat) (c' : Char)
    (hpos : posIsCore (enumLayout r cfg.master_secret) i = true)
    (hne : c' ≠ tok.getD i ' ') (uid' : String) (n : Nat) :
    verify cfg r (tok.set i c') uid' n = .error .malformed ∨
      verify cfg r (tok.set i c') uid' n = .error .integrity := by
  obtain ⟨hu, h0, hmax, hv, hp, hfit, htok⟩ := generate_eq_ok hgen
  subst htok
  have hcorelen := @length_coreOf r cfg.master_secret _ hfit
  have hne' : c' ≠ (coreOf r cfg.master_secret
      (mkPayload uid now (now + t.toNat) dev)).getD
      (coreOff (enumLayout r cfg.master_secret) i) ' ' := by
    unfold tokOf at hne
    rwa [fillSegs_getD_core _ _ _ _ _ _ _ hpos hcorelen] at hne
  have hset : (tokOf r cfg.master_secret seed
      (mkPayload uid now (now + t.toNat) dev)).set i c'
      = fillSegs r.charset cfg.master_secret
          (if r.randomize_noise then seed else 0) (enumLayout r cfg.master_secret)
          ((coreOf r cfg.master_secret (mkPayload uid now (now + t.toNat) dev)).set
            (coreOff (enumLayout r cfg.master_secret) i) c') := by
    unfold tokOf
    exact fillSegs_set_core _ _ _ _ _ _ _ hpos hcorelen
  rw [hset]
  rcases decode_core_set (if r.randomize_noise then seed else 0) hp hfit
      (coreOff_lt_cap _ _ hpos) hne' with hmal | hint
  · exact Or.inl (verify_of_decode_malformed hmal)
  · exact Or.inr (verify_of_decode_integrity hint)

theorem claim_C2_tamper_core_witness :
    verify exCfg defaultRecipe
        ((getOk (generate exCfg defaultRecipe "u" (some 600) {} 1000 7) []).set 3 'Z')
        "u" 1300 = .error .malformed ∨
      verify exCfg defaultRecipe
        ((getOk (generate exCfg defaultRecipe "u" (some 600) {} 1000 7) []).set 3 'Z')
        "u" 1300 = .error .integrity :=
  claim_C2_tamper_core exCfg defaultRecipe "u" 600 {} 1000 7 _ (by decide) 3 'Z'
    (by decide) (by decide) "u" 1300

/-- C2 (counterexample to the claim as stated): a generated token under the
default recipe, whose position 112 lies in a noise segment, still verifies
successfully after that character is replaced by a different one — so not
every single-character modification makes `verify` fail. -/
theorem claim_C2_counterexample :
    posIsCore (enumLayout defaultRecipe exCfg.master_secret) 112 = false ∧
      112 < (getOk (generate exCfg defaultRecipe "u" (some 600) {} 1000 7) []).length ∧
      (getOk (generate exCfg defaultRecipe "u" (some 600) {} 1000 7) []).getD 112 ' '
        ≠ 'Z' ∧
      verify exCfg defaultRecipe
          ((getOk (generate exCfg defaultRecipe "u" (some 600) {} 1000 7) []).set 112 'Z')
          "u" 1300
        = .ok (mkPayload "u" 1000 1600 {}) :=
  ⟨by decide, by decide, by decide, by decide⟩

theorem refresh_of_verify_ok {cfg : Config} {r : Recipe} {tok : List Char}
    {uid : String} {n : Nat} {P : Payload} {θ seed' : Nat}
    (h : verify cfg r tok uid n = .ok P) :
    refresh cfg r tok uid θ n seed'
      = if P.expires_at - n > θ then .ok none
        else
          match generate cfg r uid (some ((P.expires_at - P.issued_at : Nat) : Int))
              (devOf P) n seed' with
          | .ok t => .ok (some t)
          | .error _ => .ok none := by
  unfold refresh
  rw [h]

/-- C5 (amended): Refresh threshold — `refresh` first performs a full
verify and propagates any verification failure unchanged (whatever the
token, claimed user and failure reason: malformed, integrity, expired or
user_mismatch — no silent refresh of an invalid token); when the verified
payload has `expires_at - now > threshold_seconds` it returns none without
generating; otherwise, for an engine-issued token, it returns a new token
for the same user, TTL and device context with `issued_at` reset to the
current clock, whose `expires_at` is greater than or equal to the
original's — strictly greater exactly when the refresh happens strictly
after issuance (at the issuance instant the two coincide; see the
counterexample). -/
theorem claim_C5_refresh_threshold (cfg : Config) (r : Recipe) (θ n seed' : Nat) :
    (∀ (tok : List Char) (uid : String) (e : VErr),
      verify cfg r tok uid n = .error e →
      refresh cfg r tok uid θ n seed' = .error e) ∧
    (∀ (tok : List Char) (uid : String) (P : Payload),
      verify cfg r tok uid n = .ok P → P.expires_at - n > θ →
      refresh cfg r tok uid θ n seed' = .ok none) ∧
    (∀ (uid : String) (t : Int) (dev : DeviceInfo) (now seed : Nat) (tok : List Char),
      generate cfg r uid (some t) dev now seed = .ok tok →
      now ≤ n → n ≤ now + t.toNat → now + t.toNat - n ≤ θ → n + t.toNat < 10 ^ 12 →
      ∃ tok', refresh cfg r tok uid θ n seed' = .ok (some tok') ∧
        verify cfg r tok' uid n
          = .ok (mkPayload uid n (n + t.toNat)
              (devOf (mkPayload uid now (now + t.toNat) dev))) ∧
        (n + t.toNat) - n = (now + t.toNat) - now ∧
        now + t.toNat ≤ n + t.toNat ∧
        (now < n → now + t.toNat < n + t.toNat)) := by
  refine ⟨?_, ?_, ?_⟩
  · intro tok uid e he
    unfold refresh
    rw [he]
  · intro tok uid P hP hθ
    rw [refresh_of_verify_ok hP, if_pos hθ]
  · intro uid t dev now seed tok hgen hn1 hn2 hθ hbound
    obtain ⟨hu, h0, hmax, hv, hp, hfit, htok⟩ := generate_eq_ok hgen
    subst htok
    have hver : verify cfg r
        (tokOf r cfg.master_secret seed (mkPayload uid now (now + t.toNat) dev)) uid n
        = .ok (mkPayload uid now (now + t.toNat) dev) :=
      verify_tokOf seed hp hfit (by show n ≤ now + t.toNat; exact hn2)
    rw [refresh_of_verify_ok hver]
    rw [if_neg (by show ¬ (now + t.toNat - n > θ); omega)]
    have harg : (((mkPayload uid now (now + t.toNat) dev).expires_at
        - (mkPayload uid now (now + t.toNat) dev).issued_at : Nat) : Int) = t := by
      show ((now + t.toNat - now : Nat) : Int) = t
      omega
    rw [harg]
    have hp' : fieldsOk (mkPayload uid n (n + t.toNat)
        (devOf (mkPayload uid now (now + t.toNat) dev))) = true := by
      simp only [fieldsOk, mkPayload, devOf, Option.getD, Bool.and_eq_true,
        decide_eq_true_eq] at hp ⊢
      obtain ⟨⟨⟨⟨⟨⟨h1, h2⟩, h3⟩, h4⟩, h5⟩, h6⟩, h7⟩ := hp
      exact ⟨⟨⟨⟨⟨⟨h1, by omega⟩, by omega⟩, h4⟩, h5⟩, h6⟩, h7⟩
    have hfit' : fits r cfg.master_secret (mkPayload uid n (n + t.toNat)
        (devOf (mkPayload uid now (now + t.toNat) dev))) := by
      have hlen_eq : (serPayload (mkPayload uid n (n + t.toNat)
          (devOf (mkPayload uid now (now + t.toNat) dev)))).length
          = (serPayload (mkPayload uid now (now + t.toNat) dev)).length := by
        simp [length_serPayload, mkPayload, devOf]
      unfold fits at hfit ⊢
      rw [hlen_eq]
      exact hfit
    rw [generate_ok n seed' hu h0 hmax hv hp' hfit']
    refine ⟨_, rfl, ?_, by omega, by omega, by omega⟩
    exact verify_tokOf seed' hp' hfit' (by show n ≤ n + t.toNat; omega)

theorem claim_C5_refresh_threshold_witness :
    refresh exCfg defaultRecipe "not-a-token".data "u" 150 1005 8
        = .error .malformed ∧
    refresh exCfg defaultRecipe
        ((getOk (generate exCfg defaultRecipe "u" (some 100) {} 1000 7) []).set 118 'Z')
        "u" 150 1005 8 = .error .integrity ∧
    refresh exCfg defaultRecipe
        (getOk (generate exCfg defaultRecipe "u" (some 100) {} 1000 7) [])
        "wrong_user" 150 1005 8 = .error .user_mismatch ∧
    refresh exCfg defaultRecipe
        (getOk (generate exCfg defaultRecipe "u" (some 100) {} 1000 7) [])
        "u" 150 2000 8 = .error .expired ∧
    refresh exCfg defaultRecipe
        (getOk (generate exCfg defaultRecipe "u" (some 100) {} 1000 7) [])
        "u" 50 1005 8 = .ok none ∧
    (∃ tok', refresh exCfg defaultRecipe
          (getOk (generate exCfg defaultRecipe "u" (some 100) {} 1000 7) [])
          "u" 150 1005 8 = .ok (some tok') ∧
      verify exCfg defaultRecipe tok' "u" 1005
        = .ok (mkPayload "u" 1005 (1005 + (100 : Int).toNat)
            (devOf (mkPayload "u" 1000 (1000 + (100 : Int).toNat) {}))) ∧
      (1005 + (100 : Int).toNat) - 1005 = (1000 + (100 : Int).toNat) - 1000 ∧
      1000 + (100 : Int).toNat ≤ 1005 + (100 : Int).toNat ∧
      (1000 < 1005 → 1000 + (100 : Int).toNat < 1005 + (100 : Int).toNat)) :=
  ⟨(claim_C5_refresh_threshold exCfg defaultRecipe 150 1005 8).1 _ "u"
     .malformed (by decide),
   (claim_C5_refresh_threshold exCfg defaultRecipe 150 1005 8).1 _ "u"
     .integrity (by decide),
   (claim_C5_refresh_threshold exCfg defaultRecipe 150 1005 8).1 _ "wrong_user"
     .user_mismatch (by decide),
   (claim_C5_refresh_threshold exCfg defaultRecipe 150 2000 8).1 _ "u"
     .expired (by decide),
   (claim_C5_refresh_threshold exCfg defaultRecipe 50 1005 8).2.1 _ "u"
     (mkPayload "u" 1000 (1000 + (100 : Int).toNat) {}) (by decide) (by decide),
   (claim_C5_refresh_threshold exCfg defaultRecipe 150 1005 8).2.2 "u" 100 {} 1000 7 _
     (by decide) (by decide) (by decide) (by decide) (by decide)⟩

/-- C5 (counterexample to the claim as stated): refreshing at the issuance
instant (`now = issued_at`, still below the threshold) produces a token
whose `expires_at` equals — is not strictly greater than — the original's
(both 1100). -/
theorem claim_C5_counterexample :
    refresh exCfg defaultRecipe
        (getOk (generate exCfg defaultRecipe "u" (some 100) {} 1000 7) []) "u" 150 1000 8
      = .ok (some (getRefreshed (refresh exCfg defaultRecipe
          (getOk (generate exCfg defaultRecipe "u" (some 100) {} 1000 7) [])
          "u" 150 1000 8))) ∧
    expOf (verify exCfg defaultRecipe
        (getOk (generate exCfg defaultRecipe "u" (some 100) {} 1000 7) []) "u" 1000)
      = 1100 ∧
    expOf (verify exCfg defaultRecipe
        (getRefreshed (refresh exCfg defaultRecipe
          (getOk (generate exCfg defaultRecipe "u" (some 100) {} 1000 7) [])
          "u" 150 1000 8)) "u" 1000)
      = 1100 :=
  ⟨by decide, by decide, by decide⟩

/-- C6: Batch limit boundary — 51 or more generation requests fail
wholesale with `BatchLimitExceeded` (nothing is processed), while a batch
of exactly 50 is accepted and yields 50 outputs (the limit is inclusive). -/
theorem claim_C6_batch_limit (cfg : Config) (now seed : Nat) :
    (∀ reqs : List GenReq, 51 ≤ reqs.length →
      generate_batch cfg reqs now seed = .error .batchLimitExceeded) ∧
    (∀ reqs : List GenReq, reqs.length = 50 →
      generate_batch cfg reqs now seed = .ok (reqs.map (genOutcome cfg now seed)) ∧
        (reqs.map (genOutcome cfg now seed)).length = 50) := by
  constructor
  · intro reqs h
    unfold generate_batch
    rw [if_pos (by unfold batchLimit; omega)]
  · intro reqs h
    unfold generate_batch
    rw [if_neg (by unfold batchLimit; omega)]
    exact ⟨rfl, by simp [h]⟩

theorem claim_C6_batch_limit_witness :
    generate_batch exCfg (List.replicate 51 { user_id := "u", ttl := some 900 }) 1000 7
      = .error .batchLimitExceeded ∧
    (generate_batch exCfg (List.replicate 50 { user_id := "u", ttl := some 900 }) 1000 7
      = .ok ((List.replicate 50 ({ user_id := "u", ttl := some 900 } : GenReq)).map
          (genOutcome exCfg 1000 7)) ∧
      ((List.replicate 50 ({ user_id := "u", ttl := some 900 } : GenReq)).map
          (genOutcome exCfg 1000 7)).length = 50) :=
  ⟨(claim_C6_batch_limit exCfg 1000 7).1 _ (by decide),
   (claim_C6_batch_limit exCfg 1000 7).2 _ (by decide)⟩

/-- The spec's example batch: 5 generation requests, the third (index 2)
with an empty `user_id`. -/
def exReqs5 : List GenReq :=
  [⟨"user_1", some 900, {}⟩, ⟨"user_2", some 900, {}⟩, ⟨"", some 900, {}⟩,
   ⟨"user_4", some 900, {}⟩, ⟨"user_5", some 900, {}⟩]

/-- C7: Batch isolation — within the size limit, `generate_batch` and
`verify_batch` return outputs of the same length as the input in positional
correspondence (the map of the per-item processor); an item that fails
(e.g. an empty `user_id`) yields an error marker in exactly its own slot
while every sibling is processed independently; in particular the spec's
5-request example with request #3 empty yields exactly 4 successes and one
marker at index 2. -/
theorem claim_C7_batch_isolation (cfg : Config) (now seed : Nat) :
    (∀ reqs : List GenReq, reqs.length ≤ batchLimit →
      generate_batch cfg reqs now seed = .ok (reqs.map (genOutcome cfg now seed)) ∧
        (reqs.map (genOutcome cfg now seed)).length = reqs.length) ∧
    (∀ reqs : List VerifyReq, reqs.length ≤ batchLimit →
      verify_batch cfg reqs now = .ok (reqs.map (vOutcome cfg now)) ∧
        (reqs.map (vOutcome cfg now)).length = reqs.length) ∧
    (∀ req : GenReq, req.user_id = "" →
      genOutcome cfg now seed req = errMarker .emptyUserId) ∧
    (generate_batch exCfg exReqs5 1000 7
        = .ok (exReqs5.map (genOutcome exCfg 1000 7)) ∧
      (exReqs5.map (genOutcome exCfg 1000 7)).length = 5 ∧
      (exReqs5.map (genOutcome exCfg 1000 7)).getD 2 [] = errMarker .emptyUserId ∧
      (exReqs5.map (genOutcome exCfg 1000 7)).countP startsWithERROR = 1) := by
  refine ⟨?_, ?_, ?_, by decide, by decide, by decide, by decide⟩
  · intro reqs h
    unfold generate_batch
    rw [if_neg (by omega)]
    exact ⟨rfl, by simp⟩
  · intro reqs h
    unfold verify_batch
    rw [if_neg (by omega)]
    exact ⟨rfl, by simp⟩
  · intro req h
    unfold genOutcome
    simp [generate, h]

theorem claim_C7_batch_isolation_witness :
    generate_batch exCfg exReqs5 1000 7 = .ok (exReqs5.map (genOutcome exCfg 1000 7)) ∧
      (exReqs5.map (genOutcome exCfg 1000 7)).length = exReqs5.length ∧
    genOutcome exCfg 1000 7 ⟨"", some 900, {}⟩ = errMarker .emptyUserId :=
  ⟨((claim_C7_batch_isolation exCfg 1000 7).1 exReqs5 (by decide)).1,
   ((claim_C7_batch_isolation exCfg 1000 7).1 exReqs5 (by decide)).2,
   (claim_C7_batch_isolation exCfg 1000 7).2.2.1 _ (by decide)⟩

/-- C9: Generation precondition errors — `generate` raises
`TokenGenerationError` whenever `user_id` is empty, or an explicit ttl is
out of range (`ttl ≤ 0` or `ttl > max_ttl`); with no ttl supplied the call
uses `config.default_ttl` (the produced token expires at
`now + default_ttl`) and does not fail on the ttl condition. -/
theorem claim_C9_generation_preconditions (cfg : Config) (r : Recipe)
    (dev : DeviceInfo) (now seed : Nat) :
    (∀ ttl : Option Int, generate cfg r "" ttl dev now seed = .error .emptyUserId) ∧
    (∀ (uid : String) (t : Int), uid ≠ "" → (t ≤ 0 ∨ (cfg.max_ttl : Int) < t) →
      generate cfg r uid (some t) dev now seed = .error .ttlOutOfRange) ∧
    (∀ uid : String, uid ≠ "" → recipeValid r = true →
      fieldsOk (mkPayload uid now (now + cfg.default_ttl) dev) = true →
      fits r cfg.master_secret (mkPayload uid now (now + cfg.default_ttl) dev) →
      generate cfg r uid none dev now seed
        = .ok (tokOf r cfg.master_secret seed
            (mkPayload uid now (now + cfg.default_ttl) dev))) := by
  refine ⟨?_, ?_, ?_⟩
  · intro ttl
    unfold generate
    rw [if_pos rfl]
  · intro uid t hu ht
    unfold generate
    rw [if_neg hu]
    simp only
    rw [if_pos ht]
  · intro uid hu hv hp hfit
    unfold generate
    rw [if_neg hu]
    simp only
    rw [if_pos hv, encode_ok seed hp hfit]

theorem claim_C9_generation_preconditions_witness :
    generate exCfg defaultRecipe "" (some 900) {} 1000 7 = .error .emptyUserId ∧
    generate exCfg defaultRecipe "u" (some 0) {} 1000 7 = .error .ttlOutOfRange ∧
    generate exCfg defaultRecipe "u" (some 9000) {} 1000 7 = .error .ttlOutOfRange ∧
    generate exCfg defaultRecipe "u" none {} 1000 7
      = .ok (tokOf defaultRecipe exCfg.master_secret 7
          (mkPayload "u" 1000 (1000 + exCfg.default_ttl) {})) :=
  ⟨(claim_C9_generation_preconditions exCfg defaultRecipe {} 1000 7).1 (some 900),
   (claim_C9_generation_preconditions exCfg defaultRecipe {} 1000 7).2.1 "u" 0
     (by decide) (by decide),
   (claim_C9_generation_preconditions exCfg defaultRecipe {} 1000 7).2.1 "u" 9000
     (by decide) (by decide),
   (claim_C9_generation_preconditions exCfg defaultRecipe {} 1000 7).2.2 "u"
     (by decide) (by decide) (by decide) (by decide)⟩

theorem getD_map {α β : Type} (f : α → β) (l : List α) {j : Nat} (h : j < l.length)
    (d : β) (d' : α) : (l.map f).getD j d = f (l.getD j d') := by
  simp [List.getD, List.getElem?_map, List.getElem?_eq_getElem h]

/-- A successful `generate` under the default recipe never yields a token
starting with `ERROR` (its first character is a decimal digit). -/
theorem generate_default_not_ERROR {cfg : Config} {uid : String} {ttl : Option Int}
    {dev : DeviceInfo} {now seed : Nat} {tok : List Char}
    (h : generate cfg defaultRecipe uid ttl dev now seed = .ok tok) :
    startsWithERROR tok = false := by
  cases ttl with
  | some t =>
    obtain ⟨_, _, _, _, _, hfit, htok⟩ := generate_eq_ok h
    subst htok
    exact startsWithERROR_tokOf_default _ _ _ hfit
  | none =>
    obtain ⟨_, _, _, hfit, htok⟩ := generate_eq_ok_none h
    subst htok
    exact startsWithERROR_tokOf_default _ _ _ hfit

/-- C10: Batch error-marker format — in a successful `generate_batch`
output, the element in each slot is the per-item outcome in order; a failed
item's slot holds exactly `"ERROR: "` followed by the failure message, and
an output element starts with `ERROR` precisely when its request failed —
successful tokens never start with `ERROR`. -/
theorem claim_C10_error_marker (cfg : Config) (now seed : Nat)
    (reqs : List GenReq) (out : List (List Char))
    (hout : generate_batch cfg reqs now seed = .ok out) (j : Nat)
    (hj : j < reqs.length) :
    out.getD j [] = genOutcome cfg now seed (reqs.getD j default) ∧
    (∀ e, generate cfg defaultRecipe (reqs.getD j default).user_id
        (reqs.getD j default).ttl (reqs.getD j default).device now seed = .error e →
      out.getD j [] = errMarker e) ∧
    (startsWithERROR (out.getD j []) = true
      ↔ isErrE (generate cfg defaultRecipe (reqs.getD j default).user_id
          (reqs.getD j default).ttl (reqs.getD j default).device now seed) = true) := by
  have hmap : out = reqs.map (genOutcome cfg now seed) := by
    unfold generate_batch at hout
    by_cases hlim : reqs.length > batchLimit
    · rw [if_pos hlim] at hout
      exact absurd hout (by simp)
    · rw [if_neg hlim] at hout
      exact (Except.ok.inj hout).symm
  subst hmap
  have hget : (reqs.map (genOutcome cfg now seed)).getD j []
      = genOutcome cfg now seed (reqs.getD j default) := getD_map _ _ hj _ _
  refine ⟨hget, ?_, ?_⟩
  · intro e he
    rw [hget]
    unfold genOutcome
    rw [he]
  · rw [hget]
    unfold genOutcome
    cases hg : generate cfg defaultRecipe (reqs.getD j default).user_id
        (reqs.getD j default).ttl (reqs.getD j default).device now seed with
    | ok tokj => simp [isErrE, generate_default_not_ERROR hg]
    | error e => simp [isErrE, startsWithERROR_errMarker]

theorem claim_C10_error_marker_witness :
    (exReqs5.map (genOutcome exCfg 1000 7)).getD 2 []
        = genOutcome exCfg 1000 7 (exReqs5.getD 2 default) ∧
    (∀ e, generate exCfg defaultRecipe (exReqs5.getD 2 default).user_id
        (exReqs5.getD 2 default).ttl (exReqs5.getD 2 default).device 1000 7
          = .error e →
      (exReqs5.map (genOutcome exCfg 1000 7)).getD 2 [] = errMarker e) ∧
    (startsWithERROR ((exReqs5.map (genOutcome exCfg 1000 7)).getD 2 []) = true
      ↔ isErrE (generate exCfg defaultRecipe (exReqs5.getD 2 default).user_id
          (exReqs5.getD 2 default).ttl (exReqs5.getD 2 default).device 1000 7) = true) :=
  claim_C10_error_marker exCfg 1000 7 exReqs5 (exReqs5.map (genOutcome exCfg 1000 7))
    (by decide) 2 (by decide)

/-- Seed-independence of the assembled token when `randomize_noise` is
false: the filler is deterministic. -/
theorem tokOf_det {r : Recipe} {secret : List Nat} (hrand : r.randomize_noise = false)
    (seed₁ seed₂ : Nat) (p : Payload) :
    tokOf r secret seed₁ p = tokOf r secret seed₂ p := by
  unfold tokOf
  rw [hrand]
  simp

/-- C8: Recipe determinism — with `randomize_noise = false`, two `generate`
calls with identical payload, recipe and secret produce character-for-
character identical tokens whatever the seeds; with `randomize_noise =
true`, two tokens of the same generation input have the same length, agree
at every core-segment position (they differ only in noise-segment
positions), and both verify successfully to the same payload. -/
theorem claim_C8_recipe_determinism (cfg : Config) (r : Recipe) (uid : String)
    (dev : DeviceInfo) (now seed₁ seed₂ : Nat) :
    (r.randomize_noise = false → ∀ ttl : Option Int,
      generate cfg r uid ttl dev now seed₁ = generate cfg r uid ttl dev now seed₂) ∧
    (r.randomize_noise = true → ∀ (t : Int) (tok₁ tok₂ : List Char),
      generate cfg r uid (some t) dev now seed₁ = .ok tok₁ →
      generate cfg r uid (some t) dev now seed₂ = .ok tok₂ →
      tok₁.length = tok₂.length ∧
      (∀ i, posIsCore (enumLayout r cfg.master_secret) i = true →
        tok₁.getD i ' ' = tok₂.getD i ' ') ∧
      verify cfg r tok₁ uid now = .ok (mkPayload uid now (now + t.toNat) dev) ∧
      verify cfg r tok₂ uid now = .ok (mkPayload uid now (now + t.toNat) dev)) := by
  constructor
  · intro hrand ttl
    unfold generate encode
    simp only [tokOf_det hrand seed₁ seed₂]
  · intro hrand t tok₁ tok₂ h₁ h₂
    obtain ⟨hu, h0, hmax, hv, hp, hfit, htok₁⟩ := generate_eq_ok h₁
    obtain ⟨_, _, _, _, _, _, htok₂⟩ := generate_eq_ok h₂
    subst htok₁
    subst htok₂
    refine ⟨?_, ?_, ?_, ?_⟩
    · rw [length_tokOf hfit, length_tokOf hfit]
    · intro i hpos
      exact tokOf_getD_core_eq _ _ hfit hpos
    · exact verify_tokOf seed₁ hp hfit (by show now ≤ now + t.toNat; omega)
    · exact verify_tokOf seed₂ hp hfit (by show now ≤ now + t.toNat; omega)

/-- The fastapi example's style of deterministic custom recipe
(`randomize_noise = false`, `noise_variance = 0`). -/
def exRecipeDet : Recipe :=
  { defaultRecipe with randomize_noise := false }

theorem claim_C8_recipe_determinism_witness :
    (generate exCfg exRecipeDet "u" (some 900) {} 1000 7
      = generate exCfg exRecipeDet "u" (some 900) {} 1000 99) ∧
    ((getOk (generate exCfg defaultRecipe "u" (some 900) {} 1000 7) []).length
        = (getOk (generate exCfg defaultRecipe "u" (some 900) {} 1000 99) []).length ∧
      (∀ i, posIsCore (enumLayout defaultRecipe exCfg.master_secret) i = true →
        (getOk (generate exCfg defaultRecipe "u" (some 900) {} 1000 7) []).getD i ' '
          = (getOk (generate exCfg defaultRecipe "u" (some 900) {} 1000 99) []).getD i ' ') ∧
      verify exCfg defaultRecipe
        (getOk (generate exCfg defaultRecipe "u" (some 900) {} 1000 7) []) "u" 1000
          = .ok (mkPayload "u" 1000 (1000 + (900 : Int).toNat) {}) ∧
      verify exCfg defaultRecipe
        (getOk (generate exCfg defaultRecipe "u" (some 900) {} 1000 99) []) "u" 1000
          = .ok (mkPayload "u" 1000 (1000 + (900 : Int).toNat) {})) :=
  ⟨(claim_C8_recipe_determinism exCfg exRecipeDet "u" {} 1000 7 99).1 (by decide) (some 900),
   (claim_C8_recipe_determinism exCfg defaultRecipe "u" {} 1000 7 99).2 (by decide) 900 _ _
     (by decide) (by decide)⟩

end SyckSec
